import Mathlib

/-!
Shallow embedding of the core functions of `create_imaging_areas.py`
(KMZGenerator repository): the orbit-angle model `sso_ground_track_angle`
(source lines 75-84), the footprint builder `build_polygon` (lines 86-99),
the batch centroid generator `generate_centroids` (lines 101-117), and the
hierarchy inference engine `infer_hierarchy` (lines 304-326).

Numeric model: Python floats are modelled by `ℚ` where the code performs
only field arithmetic and comparisons (coordinates, areas, offsets, zone
selection) and by `ℝ` where the code calls transcendental library
functions (`math.cos`, `math.asin`, shapely's `rotate`); Python float
division by zero raises `ZeroDivisionError`, which is modelled by
`Except`.  Shapely geometry values are kept abstract behind the `GeomOps`
interface; a concrete instance (`boxOps`, axis-aligned rational boxes,
mirroring shapely's behaviour on such inputs) is used to evaluate the
algorithms on concrete data.
-/

namespace CIA

/-- Interface to the shapely geometry operations used by
`infer_hierarchy`: `.area`, `.buffer(dist)`, `.intersection`,
`.intersects`, `.is_empty`. -/
structure GeomOps (G : Type) where
  area : G → ℚ
  buffer : ℚ → G → G
  inter : G → G → G
  intersects : G → G → Bool
  isEmpty : G → Bool

/-- One row of the GeoDataFrame handed to `infer_hierarchy`: its name
column value, its (possibly missing) geometry, and the two classification
columns `parent_field_name` and `is_top_level` (lines 308-309 overwrite
them, so they are modelled as always-present fields). -/
structure Row (G : Type) where
  name : String
  geom : Option G
  parent : Option String
  isTop : Bool
deriving DecidableEq

/-- The GeoDataFrame: whether the name column is present (line 306 tests
`name_col not in gdf.columns`), and the ordered rows. -/
structure Gdf (G : Type) where
  hasNameCol : Bool
  rows : List (Row G)
deriving DecidableEq

/-- `DataFrame.copy()` (line 305): yields an independent object whose
value equals the original; in the pure embedding the value is unchanged
and independence is expressed by the store model `runInferHierarchy`. -/
def Gdf.copy {G : Type} (g : Gdf G) : Gdf G := g

/-- The `_area` sort key of a row (line 310, `gdf.geometry.area`): the
geometry's area, or `none` for a missing geometry (geopandas yields NaN
there, which pandas' sort places last). -/
def areaKey {G : Type} (ops : GeomOps G) (r : Row G) : Option ℚ :=
  r.geom.map ops.area

/-- Row comparison for `sort_values("_area", ascending=False)`
(line 311): descending by area, missing-area (NaN) rows last.  `leRow a b`
means `a` may be placed before `b`; ties compare `true` both ways, so the
insertion sort below keeps equal-area rows in input order.  This fixes
one definite tie order for the model: pandas' default `kind='quicksort'`
(numpy introsort) leaves the tie order unspecified for arrays of 16 or
more elements, and agrees with this model only below that threshold
(where introsort degenerates to a stable insertion sort and `nargsort`'s
double reversal preserves the input order of equal keys).  The theorems
proved over `sortRows` below do not depend on the tie order, only on the
output being area-descending and a permutation of the input. -/
def leRow {G : Type} (ops : GeomOps G) (a b : Row G) : Bool :=
  match areaKey ops a, areaKey ops b with
  | some x, some y => decide (y ≤ x)
  | some _, none => true
  | none, some _ => false
  | none, none => true

/-- Insert an element into a sorted list, before the first element it may
precede; used by the stable sort `isort`. -/
def insertRow {α : Type} (le : α → α → Bool) (a : α) : List α → List α
  | [] => [a]
  | b :: l => if le a b then a :: b :: l else b :: insertRow le a l

/-- Stable insertion sort: earlier input elements are inserted in front of
equal later ones. -/
def isort {α : Type} (le : α → α → Bool) : List α → List α
  | [] => []
  | a :: l => insertRow le a (isort le l)

/-- Line 311: `gdf.sort_values("_area", ascending=False).reset_index(drop=True)`,
with the fixed tie order described at `leRow`. -/
def sortRows {G : Type} (ops : GeomOps G) (rows : List (Row G)) : List (Row G) :=
  isort (leRow ops) rows

/-- Lines 306-307: default names `"Field_<index>"` (by original order)
when the name column is absent. -/
def assignNames {G : Type} (hasName : Bool) (rows : List (Row G)) : List (Row G) :=
  if hasName then rows
  else rows.enum.map (fun p => { p.2 with name := "Field_" ++ toString p.1 })

/-- Lines 308-309: `gdf["parent_field_name"] = None`,
`gdf["is_top_level"] = True`. -/
def resetClass {G : Type} (r : Row G) : Row G :=
  { r with parent := none, isTop := true }

/-- Lines 306-311 combined: name assignment, classification reset, and
the area-descending sort. -/
def prepRows {G : Type} (ops : GeomOps G) (gdf : Gdf G) : List (Row G) :=
  sortRows ops ((assignNames gdf.hasNameCol gdf.rows).map resetClass)

/-- Line 312 paired with names: `buffered_geoms = gdf.geometry.buffer(buffer_tolerance)`
together with `gdf.at[j, name_col]`, the only per-`j` data read by the
scan (buffering a missing geometry yields a missing geometry). -/
def ctxOf {G : Type} (ops : GeomOps G) (tol : ℚ) (rows : List (Row G)) :
    List (String × Option G) :=
  rows.map (fun r => (r.name, r.geom.map (ops.buffer tol)))

def zeroDivMsg : String := "ZeroDivisionError: float division by zero"

/-- Lines 316-324, the inner scan over `j in range(i)`: skip missing or
empty buffered geometries (line 318); compute
`intersection_area / geom.area` (lines 319-320), which raises
`ZeroDivisionError` when `geom.area == 0`; assign the first `j` with
`overlap_ratio >= min_overlap_ratio or parent_geom.intersects(geom)`
(line 321) and stop. -/
def firstQualifying {G : Type} (ops : GeomOps G) (minR : ℚ) (g : G) (ga : ℚ) :
    List (String × Option G) → Except String (Option String)
  | [] => .ok none
  | e :: rest =>
    match e.2 with
    | none => firstQualifying ops minR g ga rest
    | some pg =>
      if ops.isEmpty pg then firstQualifying ops minR g ga rest
      else if ga = 0 then .error zeroDivMsg
      else if decide (minR ≤ ops.area (ops.inter pg g) / ga) || ops.intersects pg g then
        .ok (some e.1)
      else firstQualifying ops minR g ga rest

/-- Lines 313-324, the body for one row `i`: rows with missing or empty
geometry are skipped (line 315); otherwise the scan may assign
`parent_field_name` and clear `is_top_level` (lines 322-323). -/
def stepRow {G : Type} (ops : GeomOps G) (minR : ℚ) (ctx : List (String × Option G))
    (r : Row G) : Except String (Row G) :=
  match r.geom with
  | none => .ok r
  | some g =>
    if ops.isEmpty g then .ok r
    else
      match firstQualifying ops minR g (ops.area g) ctx with
      | .error e => .error e
      | .ok none => .ok r
      | .ok (some nm) => .ok { r with parent := some nm, isTop := false }

/-- The outer loop of lines 313-324: each row is processed against the
names and buffered geometries of all earlier rows (`j < i` in sorted
order); the first raised error aborts the call. -/
def inferLoop {G : Type} (ops : GeomOps G) (minR tol : ℚ) :
    List (String × Option G) → List (Row G) → Except String (List (Row G))
  | _, [] => .ok []
  | ctx, r :: rest =>
    match stepRow ops minR ctx r with
    | .error e => .error e
    | .ok r2 =>
      (inferLoop ops minR tol (ctx ++ [(r.name, r.geom.map (ops.buffer tol))]) rest).map
        (fun out => r2 :: out)

/-- Lines 304-326: `infer_hierarchy(gdf, name_col, buffer_tolerance,
min_overlap_ratio)`.  The returned frame always has the name column and
the two classification columns; `_area` is dropped again (line 325). -/
def infer_hierarchy {G : Type} (ops : GeomOps G) (tol minR : ℚ) (gdf : Gdf G) :
    Except String (Gdf G) :=
  let s := prepRows ops (Gdf.copy gdf)
  (inferLoop ops minR tol [] s).map (fun rows => { hasNameCol := true, rows := rows })

/-- Caller-visible heap semantics of one call to `infer_hierarchy`: the
store holds the caller's dataframe objects; line 305 (`gdf = gdf.copy()`)
allocates a fresh object, and every later mutation in the body targets
that fresh object, so on success the result is appended as a new object
and on failure the allocated copy is unreachable; either way the caller's
objects are untouched. -/
def runInferHierarchy {G : Type} (ops : GeomOps G) (tol minR : ℚ)
    (store : List (Gdf G)) (ref : ℕ) : Except String ℕ × List (Gdf G) :=
  match store.get? ref with
  | none => (.error "KeyError", store)
  | some gdf =>
    match infer_hierarchy ops tol minR gdf with
    | .ok out => (.ok store.length, store ++ [out])
    | .error e => (.error e, store)

/-- The qualifying test exactly as the specification sentence words it:
the buffered geometry of `j` either overlaps `geometry(i)` with
`area(buffered(j) ∩ geometry(i)) / area(geometry(i)) ≥ min_overlap_ratio`
or intersects `geometry(i)` at all. -/
def claimQualifies {G : Type} (ops : GeomOps G) (minR : ℚ) (g : G)
    (e : String × Option G) : Bool :=
  match e.2 with
  | none => false
  | some pg => decide (minR ≤ ops.area (ops.inter pg g) / ops.area g) || ops.intersects pg g

/-- The qualifying test exactly as the code performs it (line 318 skips
empty buffered geometries before the test of line 321). -/
def codeQualifies {G : Type} (ops : GeomOps G) (minR : ℚ) (g : G)
    (e : String × Option G) : Bool :=
  match e.2 with
  | none => false
  | some pg =>
    !ops.isEmpty pg && (decide (minR ≤ ops.area (ops.inter pg g) / ops.area g) || ops.intersects pg g)

/-- Index of the first list element satisfying a predicate. -/
def firstIdx {α : Type} (p : α → Bool) : List α → Option ℕ
  | [] => none
  | a :: l => if p a then some 0 else (firstIdx p l).map (fun j => j + 1)

/-- Index of the parent assigned to the row at sorted position `i`, read
off the code's scan: the first `j < i` passing `codeQualifies`, provided
row `i` has a non-missing, non-empty geometry. -/
def codeParentIdx {G : Type} (ops : GeomOps G) (tol minR : ℚ) (s : List (Row G))
    (i : ℕ) : Option ℕ :=
  match (s.get? i).bind (fun r => r.geom) with
  | none => none
  | some g =>
    if ops.isEmpty g then none
    else firstIdx (codeQualifies ops minR g) (ctxOf ops tol (s.take i))

/-- Facts about shapely geometry used to relate the code's scan to the
specification's wording: an empty geometry intersects nothing and its
intersection with anything has zero area. -/
structure GeomLaws {G : Type} (ops : GeomOps G) : Prop where
  inter_empty_left : ∀ pg g, ops.isEmpty pg = true → ops.area (ops.inter pg g) = 0
  intersects_empty_left : ∀ pg g, ops.isEmpty pg = true → ops.intersects pg g = false
  inter_empty_right : ∀ pg g, ops.isEmpty g = true → ops.area (ops.inter pg g) = 0
  intersects_empty_right : ∀ pg g, ops.isEmpty g = true → ops.intersects pg g = false

/-- Concrete geometry instance: axis-aligned rational boxes, on which the
abstract operations agree with shapely's behaviour (closed-set
intersection, boundary touching counts as intersecting, a degenerate box
with `x1 = x2` is non-empty with zero area like a collinear polygon). -/
structure Box where
  x1 : ℚ
  x2 : ℚ
  y1 : ℚ
  y2 : ℚ
deriving DecidableEq

def Box.isEmpty (b : Box) : Bool :=
  decide (b.x2 < b.x1) || decide (b.y2 < b.y1)

def Box.area (b : Box) : ℚ :=
  if b.isEmpty then 0 else (b.x2 - b.x1) * (b.y2 - b.y1)

def Box.inter (a b : Box) : Box :=
  ⟨max a.x1 b.x1, min a.x2 b.x2, max a.y1 b.y1, min a.y2 b.y2⟩

def Box.intersects (a b : Box) : Bool :=
  !(Box.inter a b).isEmpty

def Box.buffer (d : ℚ) (b : Box) : Box :=
  if b.isEmpty then b else ⟨b.x1 - d, b.x2 + d, b.y1 - d, b.y2 + d⟩

def boxOps : GeomOps Box :=
  { area := Box.area, buffer := Box.buffer, inter := Box.inter,
    intersects := Box.intersects, isEmpty := Box.isEmpty }

/-- The two generation modes of the imaging-polygon tab (lines 36-66):
manual centroid entry, or a country base centroid with a polygon count. -/
inductive CentroidMode where
  | manual (entries : List (ℚ × ℚ))
  | batch (baseLat baseLon : ℚ) (nPolygons : ℕ)

/-- Lines 101-117, `generate_centroids()`: parsed manual entries get a
zero offset; batch mode fans `n` centroids out with lateral offsets
`sign * ((i // 2) + 1) * 10_000` where the sign is negative for even `i`. -/
def generate_centroids : CentroidMode → List (ℚ × ℚ × ℚ)
  | .manual entries => entries.map (fun e => (e.1, e.2, (0 : ℚ)))
  | .batch la lo n =>
    (List.range n).map (fun i =>
      let offsetIndex : ℕ := i / 2 + 1
      let sign : ℚ := if i % 2 = 0 then -1 else 1
      (la, lo, sign * (offsetIndex : ℚ) * 10000))

/-- Python `int(...)` on a float: truncation toward zero (for negative
arguments this is `-floor(-q)`, i.e. the ceiling). -/
def ratTrunc (q : ℚ) : ℤ :=
  if q < 0 then -(Rat.floor (-q)) else Rat.floor q

/-- Line 88: `utm_zone = int((lon + 180) / 6) + 1`. -/
def utm_zone (lon : ℚ) : ℤ :=
  ratTrunc ((lon + 180) / 6) + 1

/-- Lines 89-90: `is_northern = lat >= 0`;
`epsg = 32600 + utm_zone if is_northern else 32700 + utm_zone`. -/
def epsg_for (lat lon : ℚ) : ℤ :=
  if 0 ≤ lat then 32600 + utm_zone lon else 32700 + utm_zone lon

/-- Lines 75-84, `sso_ground_track_angle`: clamp the latitude to
`copysign(inclination_deg, lat_deg)` when its magnitude exceeds the
inclination, form `cos(inc)/cos(lat)`, clamp that ratio to `[-1, 1]`,
take `asin`, convert to degrees, and negate for the `"SE->NW"` pass. -/
noncomputable def sso_ground_track_angle (latDeg inclinationDeg : ℝ) (direction : String) : ℝ :=
  let lat :=
    if |latDeg| > inclinationDeg then
      (if latDeg < 0 then -|inclinationDeg| else |inclinationDeg|)
    else latDeg
  let latRad := lat * Real.pi / 180
  let incRad := inclinationDeg * Real.pi / 180
  let r0 := Real.cos incRad / Real.cos latRad
  let r1 := max (-1 : ℝ) (min 1 r0)
  let angleDeg := Real.arcsin r1 * 180 / Real.pi
  if direction = "NE->SW" then angleDeg else -angleDeg

/-- A pyproj transformer pair for one EPSG code (lines 91-92): forward
geodetic-to-metric and inverse metric-to-geodetic transforms, assumed
total as the specification states. -/
structure TransformPair where
  fwd : ℝ × ℝ → ℝ × ℝ
  inv : ℝ × ℝ → ℝ × ℝ

/-- Rotation about the origin by an angle in degrees (line 97,
`rotate(rect, orbit_angle, origin=(0, 0), use_radians=False)`), applied
per vertex. -/
noncomputable def rotatePoint (angleDeg : ℝ) (p : ℝ × ℝ) : ℝ × ℝ :=
  let t := angleDeg * Real.pi / 180
  (p.1 * Real.cos t - p.2 * Real.sin t, p.1 * Real.sin t + p.2 * Real.cos t)

/-- Lines 86-99, `build_polygon`: orbit angle, zone and hemisphere
selection, forward transform of the centroid, the half-width by
half-length rectangle (shapely closes the 4-vertex ring, giving the
5-point `exterior.coords`), rotation, translation by
`(x + x_offset_m, y)`, and the inverse transform of every vertex.  The
function performs no validation of `length_km`/`width_km` and raises
nothing. -/
noncomputable def build_polygon (T : ℤ → TransformPair) (lat lon : ℚ)
    (lengthKm widthKm : ℝ) (direction : String) (xOffsetM : ℝ) :
    Except String (List (ℝ × ℝ)) :=
  let orbitAngle := sso_ground_track_angle (lat : ℝ) (97.8 : ℝ) direction
  let epsg := epsg_for lat lon
  let toUtm := (T epsg).fwd
  let toLl := (T epsg).inv
  let xy := toUtm ((lon : ℝ), (lat : ℝ))
  let dx := widthKm * 1000 / 2
  let dy := lengthKm * 1000 / 2
  let rect : List (ℝ × ℝ) := [(-dx, -dy), (-dx, dy), (dx, dy), (dx, -dy), (-dx, -dy)]
  let rectRot := rect.map (rotatePoint orbitAngle)
  let rectFinal := rectRot.map (fun p => (p.1 + (xy.1 + xOffsetM), p.2 + xy.2))
  .ok (rectFinal.map toLl)

/-! ### Lemmas about the stable insertion sort -/

theorem insertRow_perm {α : Type} (le : α → α → Bool) (a : α) (l : List α) :
    List.Perm (insertRow le a l) (a :: l) := by
  induction l with
  | nil => simp [insertRow]
  | cons b l ih =>
    unfold insertRow
    by_cases h : le a b = true
    · simp [h]
    · rw [if_neg h]
      exact (ih.cons b).trans (List.Perm.swap a b l)

theorem isort_perm {α : Type} (le : α → α → Bool) (l : List α) :
    List.Perm (isort le l) l := by
  induction l with
  | nil => simp [isort]
  | cons a l ih =>
    unfold isort
    exact (insertRow_perm le a (isort le l)).trans (ih.cons a)

theorem mem_isort {α : Type} (le : α → α → Bool) {l : List α} {b : α}
    (h : b ∈ isort le l) : b ∈ l :=
  (isort_perm le l).mem_iff.mp h

theorem chain'_insertRow {α : Type} (le : α → α → Bool)
    (total : ∀ x y, le x y = true ∨ le y x = true) (a : α) :
    ∀ l, List.Chain' (fun x y => le x y = true) l →
      List.Chain' (fun x y => le x y = true) (insertRow le a l) := by
  intro l
  induction l with
  | nil => intro _; simp [insertRow]
  | cons b l ih =>
    intro hc
    unfold insertRow
    by_cases h : le a b = true
    · simpa [h, List.chain'_cons'] using hc
    · simp only [h, if_neg, Bool.false_eq_true, not_false_iff]
      have hba : le b a = true := (total a b).resolve_left h
      have htail : List.Chain' (fun x y => le x y = true) l := hc.tail
      refine List.chain'_cons'.mpr ⟨?_, ih htail⟩
      intro y hy
      cases l with
      | nil =>
        simp [insertRow] at hy
        subst hy; exact hba
      | cons c l2 =>
        unfold insertRow at hy
        by_cases hac : le a c = true
        · simp [hac] at hy
          subst hy; exact hba
        · simp [hac] at hy
          subst hy
          exact (List.chain'_cons.mp hc).1

theorem chain'_isort {α : Type} (le : α → α → Bool)
    (total : ∀ x y, le x y = true ∨ le y x = true) (l : List α) :
    List.Chain' (fun x y => le x y = true) (isort le l) := by
  induction l with
  | nil => simp [isort]
  | cons a l ih => exact chain'_insertRow le total a _ ih

theorem leRow_total {G : Type} (ops : GeomOps G) (a b : Row G) :
    leRow ops a b = true ∨ leRow ops b a = true := by
  unfold leRow
  rcases ka : areaKey ops a with _ | x <;> rcases kb : areaKey ops b with _ | y <;> simp
  exact le_total y x

theorem leRow_trans {G : Type} (ops : GeomOps G) {a b c : Row G}
    (hab : leRow ops a b = true) (hbc : leRow ops b c = true) :
    leRow ops a c = true := by
  unfold leRow at hab hbc ⊢
  rcases ka : areaKey ops a with _ | x <;> rcases kb : areaKey ops b with _ | y <;>
    rcases kc : areaKey ops c with _ | z <;> simp_all
  exact le_trans hbc hab

/-! ### Lemmas about `firstIdx` and the scan `firstQualifying` -/

theorem except_map_ok {ε α β : Type} (f : α → β) (x : Except ε α) (y : β) :
    x.map f = .ok y ↔ ∃ a, x = .ok a ∧ f a = y := by
  cases x <;> simp [Except.map]

theorem firstIdx_cons {α : Type} (p : α → Bool) (a : α) (l : List α) :
    firstIdx p (a :: l) =
      if p a then some 0 else (firstIdx p l).map (fun j => j + 1) := rfl

theorem firstIdx_lt_length {α : Type} (p : α → Bool) :
    ∀ (l : List α) (j : ℕ), firstIdx p l = some j → j < l.length := by
  intro l
  induction l with
  | nil => intro j h; simp [firstIdx] at h
  | cons a l ih =>
    intro j h
    rw [firstIdx_cons] at h
    by_cases ha : p a = true
    · rw [if_pos ha] at h
      cases h
      simp
    · rw [if_neg ha, Option.map_eq_some'] at h
      obtain ⟨k, hk, rfl⟩ := h
      have := ih k hk
      simp only [List.length_cons]
      omega

theorem firstIdx_holds {α : Type} (p : α → Bool) :
    ∀ (l : List α) (j : ℕ), firstIdx p l = some j →
      ∀ hj : j < l.length, p (l.get ⟨j, hj⟩) = true := by
  intro l
  induction l with
  | nil => intro j h; simp [firstIdx] at h
  | cons a l ih =>
    intro j h
    rw [firstIdx_cons] at h
    by_cases ha : p a = true
    · rw [if_pos ha] at h
      cases h
      intro hj
      exact ha
    · rw [if_neg ha, Option.map_eq_some'] at h
      obtain ⟨k, hk, rfl⟩ := h
      intro hj
      exact ih k hk _

theorem firstIdx_congr {α : Type} (p q : α → Bool) :
    ∀ (l : List α), (∀ a ∈ l, p a = q a) → firstIdx p l = firstIdx q l := by
  intro l
  induction l with
  | nil => intro _; rfl
  | cons a l ih =>
    intro h
    rw [firstIdx_cons, firstIdx_cons, h a (List.mem_cons_self a l),
      ih (fun b hb => h b (List.mem_cons_of_mem a hb))]

theorem codeQualifies_eval_none {G : Type} (ops : GeomOps G) (minR : ℚ) (g : G)
    {e : String × Option G} (he : e.2 = none) : codeQualifies ops minR g e = false := by
  unfold codeQualifies
  rw [he]

theorem codeQualifies_eval_some {G : Type} (ops : GeomOps G) (minR : ℚ) (g : G)
    {e : String × Option G} {pg : G} (he : e.2 = some pg) :
    codeQualifies ops minR g e =
      (!ops.isEmpty pg &&
        (decide (minR ≤ ops.area (ops.inter pg g) / ops.area g) || ops.intersects pg g)) := by
  unfold codeQualifies
  rw [he]

theorem bind_shift {α β : Type} (e : α × β) (rest : List (α × β)) (x : Option ℕ) :
    (x.map (fun j => j + 1)).bind (fun j => ((e :: rest).get? j).map Prod.fst) =
      x.bind (fun j => (rest.get? j).map Prod.fst) := by
  cases x <;> simp

/-- The scan of lines 316-324, when it does not raise, returns exactly the
name stored at the first context index passing the code's qualifying
test. -/
theorem firstQualifying_ok_eq {G : Type} (ops : GeomOps G) (minR : ℚ) (g : G) :
    ∀ (ctx : List (String × Option G)) (res : Option String),
      firstQualifying ops minR g (ops.area g) ctx = .ok res →
      res = (firstIdx (codeQualifies ops minR g) ctx).bind
        (fun j => (ctx.get? j).map Prod.fst) := by
  intro ctx
  induction ctx with
  | nil =>
    intro res h
    simp [firstQualifying] at h
    simp [firstIdx, h]
  | cons e rest ih =>
    intro res h
    have hrec : ∀ hq : codeQualifies ops minR g e = false,
        firstQualifying ops minR g (ops.area g) rest = .ok res →
        res = (firstIdx (codeQualifies ops minR g) (e :: rest)).bind
          (fun j => ((e :: rest).get? j).map Prod.fst) := by
      intro hq h2
      rw [firstIdx_cons, hq]
      rw [if_neg (by simp)]
      rw [bind_shift]
      exact ih res h2
    obtain ⟨nm, pgo⟩ := e
    cases pgo with
    | none =>
      have heq : firstQualifying ops minR g (ops.area g) ((nm, none) :: rest) =
          firstQualifying ops minR g (ops.area g) rest := rfl
      rw [heq] at h
      exact hrec (codeQualifies_eval_none ops minR g rfl) h
    | some pg =>
      have heq : firstQualifying ops minR g (ops.area g) ((nm, some pg) :: rest) =
          (if ops.isEmpty pg = true then firstQualifying ops minR g (ops.area g) rest
           else if ops.area g = 0 then .error zeroDivMsg
           else if (decide (minR ≤ ops.area (ops.inter pg g) / ops.area g) || ops.intersects pg g) = true then
             .ok (some nm)
           else firstQualifying ops minR g (ops.area g) rest) := rfl
      rw [heq] at h
      by_cases hemp : ops.isEmpty pg = true
      · rw [if_pos hemp] at h
        refine hrec ?_ h
        rw [codeQualifies_eval_some ops minR g rfl, hemp]
        simp
      · rw [if_neg hemp] at h
        by_cases hga : ops.area g = 0
        · rw [if_pos hga] at h
          exact absurd h (by simp)
        · rw [if_neg hga] at h
          by_cases hcond :
              (decide (minR ≤ ops.area (ops.inter pg g) / ops.area g) || ops.intersects pg g) = true
          · rw [if_pos hcond] at h
            have hres : res = some nm := by
              simpa using h.symm
            have hq : codeQualifies ops minR g (nm, some pg) = true := by
              rw [codeQualifies_eval_some ops minR g rfl]
              simp [hemp, hcond]
            rw [firstIdx_cons, hq, if_pos rfl]
            simp [hres]
          · rw [if_neg hcond] at h
            refine hrec ?_ h
            rw [codeQualifies_eval_some ops minR g rfl]
            simp only [Bool.and_eq_false_iff]
            right
            exact (Bool.not_eq_true _).mp hcond

/-- Under the geometry laws and a positive overlap threshold, the code's
qualifying test agrees with the specification's wording of it. -/
theorem claimQualifies_eq_code {G : Type} {ops : GeomOps G} (hl : GeomLaws ops)
    {minR : ℚ} (hm : 0 < minR) (g : G) (e : String × Option G) :
    claimQualifies ops minR g e = codeQualifies ops minR g e := by
  unfold claimQualifies codeQualifies
  rcases he : e.2 with _ | pg
  · rfl
  · by_cases hemp : ops.isEmpty pg = true
    · have h1 : ops.area (ops.inter pg g) = 0 := hl.inter_empty_left pg g hemp
      have h2 : ops.intersects pg g = false := hl.intersects_empty_left pg g hemp
      have h3 : ¬ (minR ≤ ops.area (ops.inter pg g) / ops.area g) := by
        rw [h1, zero_div]
        exact not_le.mpr hm
      simp [hemp, h2, h3]
    · simp [hemp]

/-- The scan never raises when the area of the current geometry is
nonzero. -/
theorem firstQualifying_ok_of_ne {G : Type} (ops : GeomOps G) (minR : ℚ) (g : G)
    (ga : ℚ) (hga : ga ≠ 0) :
    ∀ ctx : List (String × Option G), ∃ res, firstQualifying ops minR g ga ctx = .ok res := by
  intro ctx
  induction ctx with
  | nil => exact ⟨none, rfl⟩
  | cons e rest ih =>
    obtain ⟨nm, pgo⟩ := e
    cases pgo with
    | none => exact ih
    | some pg =>
      have heq : firstQualifying ops minR g ga ((nm, some pg) :: rest) =
          (if ops.isEmpty pg = true then firstQualifying ops minR g ga rest
           else if ga = 0 then .error zeroDivMsg
           else if (decide (minR ≤ ops.area (ops.inter pg g) / ga) || ops.intersects pg g) = true then
             .ok (some nm)
           else firstQualifying ops minR g ga rest) := rfl
      rw [heq]
      by_cases hemp : ops.isEmpty pg = true
      · rw [if_pos hemp]; exact ih
      · rw [if_neg hemp, if_neg hga]
        by_cases hcond :
            (decide (minR ≤ ops.area (ops.inter pg g) / ga) || ops.intersects pg g) = true
        · rw [if_pos hcond]; exact ⟨some nm, rfl⟩
        · rw [if_neg hcond]; exact ih

/-! ### Lemmas about `stepRow` and `inferLoop` -/

theorem stepRow_none {G : Type} (ops : GeomOps G) (minR : ℚ)
    (ctx : List (String × Option G)) {r : Row G} (h : r.geom = none) :
    stepRow ops minR ctx r = .ok r := by
  unfold stepRow
  rw [h]

theorem stepRow_some {G : Type} (ops : GeomOps G) (minR : ℚ)
    (ctx : List (String × Option G)) {r : Row G} {g : G} (h : r.geom = some g) :
    stepRow ops minR ctx r =
      (if ops.isEmpty g then .ok r
       else
         match firstQualifying ops minR g (ops.area g) ctx with
         | .error e => .error e
         | .ok none => .ok r
         | .ok (some nm) => .ok { r with parent := some nm, isTop := false }) := by
  unfold stepRow
  rw [h]

theorem stepRow_ok_of {G : Type} (ops : GeomOps G) (minR : ℚ)
    (ctx : List (String × Option G)) (r : Row G)
    (h : match r.geom with
         | some g => ops.isEmpty g = true ∨ ops.area g ≠ 0
         | none => True) :
    ∃ r2, stepRow ops minR ctx r = .ok r2 := by
  cases hg : r.geom with
  | none => exact ⟨r, stepRow_none ops minR ctx hg⟩
  | some g =>
    rw [stepRow_some ops minR ctx hg]
    by_cases hemp : ops.isEmpty g = true
    · rw [if_pos hemp]
      exact ⟨r, rfl⟩
    · rw [if_neg hemp]
      rw [hg] at h
      have hga : ops.area g ≠ 0 := by
        rcases h with h1 | h2
        · exact absurd h1 hemp
        · exact h2
      obtain ⟨res, hres⟩ := firstQualifying_ok_of_ne ops minR g (ops.area g) hga ctx
      rw [hres]
      cases res with
      | none => exact ⟨r, rfl⟩
      | some nm => exact ⟨{ r with parent := some nm, isTop := false }, rfl⟩

theorem inferLoop_cons_ok {G : Type} (ops : GeomOps G) (minR tol : ℚ)
    (ctx : List (String × Option G)) (r : Row G) (rest : List (Row G)) {r2 : Row G}
    (hs : stepRow ops minR ctx r = .ok r2) :
    inferLoop ops minR tol ctx (r :: rest) =
      (inferLoop ops minR tol (ctx ++ [(r.name, r.geom.map (ops.buffer tol))]) rest).map
        (fun out => r2 :: out) := by
  conv_lhs => unfold inferLoop
  rw [hs]

theorem inferLoop_cons_err {G : Type} (ops : GeomOps G) (minR tol : ℚ)
    (ctx : List (String × Option G)) (r : Row G) (rest : List (Row G)) {e2 : String}
    (hs : stepRow ops minR ctx r = .error e2) :
    inferLoop ops minR tol ctx (r :: rest) = .error e2 := by
  unfold inferLoop
  rw [hs]

theorem inferLoop_ok_cons {G : Type} (ops : GeomOps G) (minR tol : ℚ)
    (ctx : List (String × Option G)) (r : Row G) (rest : List (Row G))
    (out : List (Row G)) (h : inferLoop ops minR tol ctx (r :: rest) = .ok out) :
    ∃ r2 out2, stepRow ops minR ctx r = .ok r2 ∧
      inferLoop ops minR tol (ctx ++ [(r.name, r.geom.map (ops.buffer tol))]) rest = .ok out2 ∧
      out = r2 :: out2 := by
  cases hs : stepRow ops minR ctx r with
  | error e2 =>
    rw [inferLoop_cons_err ops minR tol ctx r rest hs] at h
    exact absurd h (by simp)
  | ok r2 =>
    rw [inferLoop_cons_ok ops minR tol ctx r rest hs] at h
    rw [except_map_ok] at h
    obtain ⟨out2, h2, hout⟩ := h
    exact ⟨r2, out2, rfl, h2, hout.symm⟩

theorem ctxOf_nil {G : Type} (ops : GeomOps G) (tol : ℚ) : ctxOf ops tol [] = [] := rfl

theorem ctxOf_cons {G : Type} (ops : GeomOps G) (tol : ℚ) (r : Row G) (l : List (Row G)) :
    ctxOf ops tol (r :: l) = (r.name, r.geom.map (ops.buffer tol)) :: ctxOf ops tol l := rfl

/-- Characterisation of a successful run of the loop of lines 313-324:
row `i` of the output is row `i` of the input processed against the
context of all rows before it. -/
theorem inferLoop_ok_char {G : Type} (ops : GeomOps G) (minR tol : ℚ) :
    ∀ (rows : List (Row G)) (ctx : List (String × Option G)) (out : List (Row G)),
      inferLoop ops minR tol ctx rows = .ok out →
      out.length = rows.length ∧
      ∀ i (hi : i < rows.length) (hi2 : i < out.length),
        stepRow ops minR (ctx ++ ctxOf ops tol (rows.take i)) (rows.get ⟨i, hi⟩) =
          .ok (out.get ⟨i, hi2⟩) := by
  intro rows
  induction rows with
  | nil =>
    intro ctx out h
    have : out = [] := by
      simpa [inferLoop] using h.symm
    subst this
    exact ⟨rfl, fun i hi => absurd hi (by simp)⟩
  | cons r rest ih =>
    intro ctx out h
    obtain ⟨r2, out2, hs, h2, hout⟩ := inferLoop_ok_cons ops minR tol ctx r rest out h
    subst hout
    obtain ⟨hlen, hchar⟩ := ih _ out2 h2
    constructor
    · simp [hlen]
    · intro i hi hi2
      cases i with
      | zero =>
        simpa [ctxOf_nil] using hs
      | succ i =>
        have hi' : i < rest.length := by simpa using hi
        have hi2' : i < out2.length := by simpa using hi2
        have := hchar i hi' hi2'
        have hctx : ctx ++ ctxOf ops tol ((r :: rest).take (i + 1)) =
            (ctx ++ [(r.name, r.geom.map (ops.buffer tol))]) ++ ctxOf ops tol (rest.take i) := by
          rw [List.take_succ_cons, ctxOf_cons]
          simp
        rw [hctx]
        simpa using this

theorem inferLoop_ok_of {G : Type} (ops : GeomOps G) (minR tol : ℚ) :
    ∀ (rows : List (Row G)) (ctx : List (String × Option G)),
      (∀ r ∈ rows, match r.geom with
                   | some g => ops.isEmpty g = true ∨ ops.area g ≠ 0
                   | none => True) →
      ∃ out, inferLoop ops minR tol ctx rows = .ok out := by
  intro rows
  induction rows with
  | nil => intro ctx _; exact ⟨[], rfl⟩
  | cons r rest ih =>
    intro ctx hcond
    obtain ⟨r2, hs⟩ := stepRow_ok_of ops minR ctx r (hcond r (List.mem_cons_self r rest))
    obtain ⟨out2, h2⟩ :=
      ih (ctx ++ [(r.name, r.geom.map (ops.buffer tol))])
        (fun x hx => hcond x (List.mem_cons_of_mem r hx))
    refine ⟨r2 :: out2, ?_⟩
    rw [inferLoop_cons_ok ops minR tol ctx r rest hs, h2]
    rfl

/-! ### Unfolding `infer_hierarchy`, prepared-row facts, box laws -/

theorem infer_hierarchy_ok_elim {G : Type} (ops : GeomOps G) (tol minR : ℚ)
    (gdf out : Gdf G) (h : infer_hierarchy ops tol minR gdf = .ok out) :
    inferLoop ops minR tol [] (prepRows ops gdf) = .ok out.rows ∧ out.hasNameCol = true := by
  unfold infer_hierarchy at h
  rw [except_map_ok] at h
  obtain ⟨rows0, hloop, hwrap⟩ := h
  rw [← hwrap]
  exact ⟨hloop, rfl⟩

theorem infer_hierarchy_intro {G : Type} (ops : GeomOps G) (tol minR : ℚ)
    (gdf : Gdf G) (rows0 : List (Row G))
    (h : inferLoop ops minR tol [] (prepRows ops gdf) = .ok rows0) :
    infer_hierarchy ops tol minR gdf = .ok { hasNameCol := true, rows := rows0 } := by
  show (inferLoop ops minR tol [] (prepRows ops gdf)).map
      (fun rows => ({ hasNameCol := true, rows := rows } : Gdf G)) = _
  rw [h]
  rfl

theorem prepRows_fixed {G : Type} (ops : GeomOps G) (gdf : Gdf G) :
    ∀ r ∈ prepRows ops gdf, resetClass r = r := by
  intro r hr
  have hr2 : r ∈ (assignNames gdf.hasNameCol gdf.rows).map resetClass :=
    mem_isort (leRow ops) hr
  obtain ⟨x, hx, hxe⟩ := List.mem_map.mp hr2
  rw [← hxe]
  rfl

theorem prepRows_chain {G : Type} (ops : GeomOps G) (gdf : Gdf G) :
    List.Chain' (fun a b => leRow ops a b = true) (prepRows ops gdf) :=
  chain'_isort (leRow ops) (leRow_total ops) _

/-- Sorted position facts: in a chain for a transitive boolean order,
every earlier element is related to every later one. -/
theorem chain_le_get {α : Type} (le : α → α → Bool)
    (htr : ∀ {a b c : α}, le a b = true → le b c = true → le a c = true)
    (l : List α) (hc : List.Chain' (fun a b => le a b = true) l) :
    ∀ (i j : Fin l.length), (i : ℕ) < j → le (l.get i) (l.get j) = true := by
  haveI : IsTrans α (fun a b => le a b = true) := ⟨fun a b c hab hbc => htr hab hbc⟩
  have hp : l.Pairwise (fun a b => le a b = true) := List.chain'_iff_pairwise.mp hc
  rw [List.pairwise_iff_get] at hp
  exact hp

theorem box_empty_inter_left {a b : Box} (h : a.isEmpty = true) :
    (Box.inter a b).isEmpty = true := by
  unfold Box.isEmpty at h ⊢
  unfold Box.inter
  simp only [Bool.or_eq_true, decide_eq_true_eq] at h ⊢
  rcases h with h | h
  · exact Or.inl (lt_of_le_of_lt (min_le_left _ _) (lt_of_lt_of_le h (le_max_left _ _)))
  · exact Or.inr (lt_of_le_of_lt (min_le_left _ _) (lt_of_lt_of_le h (le_max_left _ _)))

theorem box_empty_inter_right {a b : Box} (h : b.isEmpty = true) :
    (Box.inter a b).isEmpty = true := by
  unfold Box.isEmpty at h ⊢
  unfold Box.inter
  simp only [Bool.or_eq_true, decide_eq_true_eq] at h ⊢
  rcases h with h | h
  · exact Or.inl (lt_of_le_of_lt (min_le_right _ _) (lt_of_lt_of_le h (le_max_right _ _)))
  · exact Or.inr (lt_of_le_of_lt (min_le_right _ _) (lt_of_lt_of_le h (le_max_right _ _)))

theorem box_area_empty {a : Box} (h : a.isEmpty = true) : a.area = 0 := by
  unfold Box.area
  rw [if_pos h]

theorem box_laws : GeomLaws boxOps := by
  refine ⟨?_, ?_, ?_, ?_⟩
  · intro pg g h
    exact box_area_empty (box_empty_inter_left h)
  · intro pg g h
    show (!(Box.inter pg g).isEmpty) = false
    rw [box_empty_inter_left h]
    rfl
  · intro pg g h
    exact box_area_empty (box_empty_inter_right h)
  · intro pg g h
    show (!(Box.inter pg g).isEmpty) = false
    rw [box_empty_inter_right h]
    rfl

/-! ### Concrete data for evaluating the algorithms -/

def boxA : Box := ⟨0, 100, 0, 100⟩
def boxB : Box := ⟨10, 50, 10, 50⟩
def boxC : Box := ⟨20, 30, 20, 30⟩

/-- A degenerate (collinear-polygon-like) geometry: non-empty, zero area. -/
def boxSeg : Box := ⟨5, 5, 0, 7⟩

/-- An empty geometry. -/
def boxEmpty : Box := ⟨3, 1, 0, 2⟩

def exGdf : Gdf Box :=
  ⟨true, [⟨"C", some boxC, none, true⟩, ⟨"A", some boxA, none, true⟩,
          ⟨"B", some boxB, none, true⟩]⟩

def exOut : Gdf Box :=
  ⟨true, [⟨"A", some boxA, none, true⟩, ⟨"B", some boxB, some "A", false⟩,
          ⟨"C", some boxC, some "A", false⟩]⟩

def degGdf : Gdf Box :=
  ⟨true, [⟨"A", some boxA, none, true⟩, ⟨"S", some boxSeg, none, true⟩]⟩

def mixGdf : Gdf Box :=
  ⟨true, [⟨"E", some boxEmpty, none, true⟩, ⟨"A", some boxA, none, true⟩,
          ⟨"N", none, none, true⟩, ⟨"B", some boxB, none, true⟩]⟩

def idTransforms : ℤ → TransformPair := fun _ => ⟨fun p => p, fun p => p⟩

/-- Concrete run of the hierarchy engine on three nested boxes given in
scrambled order: the largest box A becomes top-level and both smaller
boxes get parent "A" (the first qualifying record in area-descending
order wins, so C's parent is A, not B). -/
theorem exGdf_run : infer_hierarchy boxOps (1/2000) (1/50) exGdf = .ok exOut := by
  norm_num [infer_hierarchy, prepRows, sortRows, isort, insertRow, leRow, areaKey,
    assignNames, resetClass, inferLoop, stepRow, firstQualifying, ctxOf, Gdf.copy,
    boxOps, Box.area, Box.buffer, Box.inter, Box.intersects, Box.isEmpty,
    boxA, boxB, boxC, exGdf, exOut, Except.map]

/-! ### C6: build_polygon and non-positive dimensions -/

/-- C6 counterexample: `build_polygon` called with negative
`length_km = -5` and `width_km = -3` does not fail at all — it returns a
normal ring, refuting the claim that it fails with
`InvalidGeometryError` whenever length or width is non-positive (the
source contains no such check and no such error type). -/
theorem build_polygon_negative_dims_ok :
    (build_polygon idTransforms 1 2 (-5) (-3) "NE->SW" 0).isOk = true := rfl

/-- C6 (amended): `build_polygon` is total — for every transformer
family, centroid, dimensions (positive or not), direction and offset it
returns (never raises) a closed ring of exactly 5 vertices whose first
point equals its last. -/
theorem build_polygon_total (T : ℤ → TransformPair) (lat lon : ℚ)
    (lengthKm widthKm : ℝ) (direction : String) (xOffsetM : ℝ) :
    ∃ ring, build_polygon T lat lon lengthKm widthKm direction xOffsetM = .ok ring ∧
      ring.length = 5 ∧ ring.head? = ring.getLast? := by
  refine ⟨_, rfl, rfl, ?_⟩
  rfl

/-! ### C7: batch centroid generation -/

/-- The properties claimed of the batch centroid generator, at batch
parameters `(la, lo, n)`, index `i`, and an explicit manual list
`entries`: exactly `n` pairs are produced; the `i`-th offset is
`sign * ((i // 2) + 1) * 10000` with alternating sign starting negative,
so its magnitude is `10000 * ceil((i+1)/2)` (1-based rank `i+1`); and all
manual entries carry offset `0`. -/
def c7Prop (la lo : ℚ) (n i : ℕ) (entries : List (ℚ × ℚ)) : Prop :=
  (generate_centroids (.batch la lo n)).length = n ∧
  (generate_centroids (.batch la lo n)).get? i =
    some (la, lo, (if i % 2 = 0 then (-1 : ℚ) else 1) * ((i / 2 + 1 : ℕ) : ℚ) * 10000) ∧
  |(if i % 2 = 0 then (-1 : ℚ) else 1) * ((i / 2 + 1 : ℕ) : ℚ) * 10000| =
    10000 * (((i + 2) / 2 : ℕ) : ℚ) ∧
  ((if i % 2 = 0 then (-1 : ℚ) else 1) * ((i / 2 + 1 : ℕ) : ℚ) * 10000 < 0 ↔ i % 2 = 0) ∧
  ∀ e ∈ generate_centroids (.manual entries), e.2.2 = 0

/-- C7: the batch centroid generator yields exactly `n`
`(centroid, lateral_offset)` pairs whose offsets alternate in sign with
magnitudes `10000 * ceil(k/2)` for 1-based `k`, and explicit centroid
lists get offset `0` throughout. -/
theorem generate_centroids_spec (la lo : ℚ) (n i : ℕ) (hi : i < n)
    (entries : List (ℚ × ℚ)) : c7Prop la lo n i entries := by
  have hc : (0 : ℚ) < ((i / 2 + 1 : ℕ) : ℚ) := by
    exact_mod_cast Nat.succ_pos (i / 2)
  have hpos : (0 : ℚ) < ((i / 2 + 1 : ℕ) : ℚ) * 10000 := by nlinarith
  refine ⟨?_, ?_, ?_, ?_, ?_⟩
  · simp [generate_centroids]
  · show ((List.range n).map _).get? i = _
    rw [List.get?_map, List.get?_range hi]
    rfl
  · have h2 : (i + 2) / 2 = i / 2 + 1 := by omega
    rw [h2]
    by_cases hpar : i % 2 = 0
    · rw [if_pos hpar, abs_of_nonpos (by nlinarith)]
      ring
    · rw [if_neg hpar, abs_of_nonneg (by nlinarith)]
      ring
  · constructor
    · intro hlt
      by_contra hpar
      rw [if_neg hpar] at hlt
      nlinarith
    · intro hpar
      rw [if_pos hpar]
      nlinarith
  · intro e he
    obtain ⟨x, hx, hxe⟩ := List.mem_map.mp he
    rw [← hxe]

/-- C7 witness: concrete evaluation at the spec's own test case
(`count = 10`), index 3 (fourth offset, `+20000`). -/
theorem generate_centroids_spec_witness : c7Prop (109/2) (-5/2) 10 3 [(1, 2)] :=
  generate_centroids_spec (109/2) (-5/2) 10 3 (by decide) [(1, 2)]

/-! ### C9: zone and hemisphere selection -/

/-- The zone/hemisphere facts claimed of lines 88-90 at a given centroid:
the truncation equals the floor formula, the zone is within 1..60, and
the hemisphere is picked by the sign of the latitude. -/
def c9Prop (lat lon : ℚ) : Prop :=
  utm_zone lon = ⌊(lon + 180) / 6⌋ + 1 ∧
  1 ≤ utm_zone lon ∧ utm_zone lon ≤ 60 ∧
  (0 ≤ lat → epsg_for lat lon = 32600 + utm_zone lon) ∧
  (lat < 0 → epsg_for lat lon = 32700 + utm_zone lon)

theorem ratFloor_eq_floor (q : ℚ) : Rat.floor q = ⌊q⌋ :=
  (Rat.floor_def' q).trans Rat.floor_def.symm

/-- C9 counterexample: at longitude `180`, which the stated invariant
`longitude ∈ [-180, 180]` allows, the code computes zone
`int((180+180)/6)+1 = 61`, outside the claimed range 1-60. -/
theorem utm_zone_at_180 : utm_zone 180 = 61 ∧ ¬ utm_zone 180 ≤ 60 := by
  have h : utm_zone 180 = 61 := by
    unfold utm_zone ratTrunc
    rw [if_neg (by norm_num : ¬ ((180 : ℚ) + 180) / 6 < 0), ratFloor_eq_floor]
    have h60 : ((180 : ℚ) + 180) / 6 = ((60 : ℤ) : ℚ) := by norm_num
    rw [h60, Int.floor_intCast]
    decide
  refine ⟨h, ?_⟩
  rw [h]
  decide

/-- C9 (amended): for longitude in `[-180, 180)` the zone formula
truncation agrees with `floor((lon + 180)/6) + 1`, lies in 1..60, and the
hemisphere CRS is selected by the sign of the latitude; at the boundary
`lon = 180` the formula yields 61 instead. -/
theorem utm_zone_spec (lat lon : ℚ) (h1 : -180 ≤ lon) (h2 : lon < 180) :
    c9Prop lat lon := by
  have harg : (0 : ℚ) ≤ (lon + 180) / 6 := by
    apply div_nonneg
    · linarith
    · norm_num
  have htr : ratTrunc ((lon + 180) / 6) = ⌊(lon + 180) / 6⌋ := by
    unfold ratTrunc
    rw [if_neg (not_lt.mpr harg), ratFloor_eq_floor]
  have hfl0 : 0 ≤ ⌊(lon + 180) / 6⌋ := Int.floor_nonneg.mpr harg
  have hflt : ⌊(lon + 180) / 6⌋ < 60 := by
    rw [Int.floor_lt]
    rw [div_lt_iff₀ (by norm_num : (0:ℚ) < 6)]
    push_cast
    linarith
  refine ⟨?_, ?_, ?_, ?_, ?_⟩
  · unfold utm_zone
    rw [htr]
  · unfold utm_zone
    rw [htr]
    omega
  · unfold utm_zone
    rw [htr]
    omega
  · intro hlat
    unfold epsg_for
    rw [if_pos hlat]
  · intro hlat
    unfold epsg_for
    rw [if_neg (not_le.mpr hlat)]

/-- C9 witness: concrete instance at latitude `-1`, longitude `-174`
(southern hemisphere, zone 2). -/
theorem utm_zone_spec_witness : c9Prop (-1) (-174) :=
  utm_zone_spec (-1) (-174) (by norm_num) (by norm_num)

/-! ### C10: the caller's dataframe is never mutated -/

/-- C10: in the heap model of one call (`runInferHierarchy`), whatever
the outcome, the caller's objects are unchanged — the first
`store.length` entries of the post-call store are exactly the pre-call
store — and on success the returned reference denotes a fresh object
that is not any caller-owned entry. -/
theorem runInferHierarchy_eq_missing {G : Type} (ops : GeomOps G) (tol minR : ℚ)
    (store : List (Gdf G)) (ref : ℕ) (href : store.get? ref = none) :
    runInferHierarchy ops tol minR store ref = (.error "KeyError", store) := by
  unfold runInferHierarchy
  rw [href]

theorem runInferHierarchy_eq_ok {G : Type} (ops : GeomOps G) (tol minR : ℚ)
    (store : List (Gdf G)) (ref : ℕ) {gdf out : Gdf G}
    (href : store.get? ref = some gdf)
    (hres : infer_hierarchy ops tol minR gdf = .ok out) :
    runInferHierarchy ops tol minR store ref = (.ok store.length, store ++ [out]) := by
  unfold runInferHierarchy
  rw [href]
  show (match infer_hierarchy ops tol minR gdf with
        | .ok out => ((.ok store.length : Except String ℕ), store ++ [out])
        | .error e => (.error e, store)) = _
  rw [hres]

theorem runInferHierarchy_eq_err {G : Type} (ops : GeomOps G) (tol minR : ℚ)
    (store : List (Gdf G)) (ref : ℕ) {gdf : Gdf G} {e : String}
    (href : store.get? ref = some gdf)
    (hres : infer_hierarchy ops tol minR gdf = .error e) :
    runInferHierarchy ops tol minR store ref = (.error e, store) := by
  unfold runInferHierarchy
  rw [href]
  show (match infer_hierarchy ops tol minR gdf with
        | .ok out => ((.ok store.length : Except String ℕ), store ++ [out])
        | .error e => (.error e, store)) = _
  rw [hres]

theorem runInferHierarchy_frame {G : Type} (ops : GeomOps G) (tol minR : ℚ)
    (store : List (Gdf G)) (ref : ℕ) :
    ((runInferHierarchy ops tol minR store ref).2).take store.length = store ∧
    ∀ k, (runInferHierarchy ops tol minR store ref).1 = .ok k →
      store.get? k = none ∧ k = store.length := by
  cases href : store.get? ref with
  | none =>
    rw [runInferHierarchy_eq_missing ops tol minR store ref href]
    refine ⟨List.take_length store, ?_⟩
    intro k hk
    exact absurd hk (by simp)
  | some gdf =>
    cases hres : infer_hierarchy ops tol minR gdf with
    | ok out =>
      rw [runInferHierarchy_eq_ok ops tol minR store ref href hres]
      constructor
      · exact List.take_left store [out]
      · intro k hk
        have hkk : k = store.length := by
          simpa using hk.symm
        subst hkk
        exact ⟨List.get?_eq_none.mpr le_rfl, rfl⟩
    | error e =>
      rw [runInferHierarchy_eq_err ops tol minR store ref href hres]
      refine ⟨List.take_length store, ?_⟩
      intro k hk
      exact absurd hk (by simp)

/-- C10 witness: a concrete successful call on a one-object store leaves
the caller's object in place and returns the fresh index 1. -/
theorem runInferHierarchy_frame_witness :
    ((runInferHierarchy boxOps (1/2000) (1/50) [exGdf] 0).2).take [exGdf].length = [exGdf] ∧
    [exGdf].get? 1 = none ∧ (1 : ℕ) = [exGdf].length := by
  have hrun : runInferHierarchy boxOps (1/2000) (1/50) [exGdf] 0 =
      (.ok [exGdf].length, [exGdf] ++ [exOut]) :=
    runInferHierarchy_eq_ok boxOps (1/2000) (1/50) [exGdf] 0 rfl exGdf_run
  refine ⟨(runInferHierarchy_frame boxOps (1/2000) (1/50) [exGdf] 0).1, ?_, ?_⟩
  · exact ((runInferHierarchy_frame boxOps (1/2000) (1/50) [exGdf] 0).2 1 (by rw [hrun]; rfl)).1
  · exact ((runInferHierarchy_frame boxOps (1/2000) (1/50) [exGdf] 0).2 1 (by rw [hrun]; rfl)).2

/-! ### C3: error behaviour on degenerate and empty geometries -/

/-- C3 counterexample: a dataset with a well-formed but degenerate
geometry (non-empty, zero area, like a collinear polygon) makes
`infer_hierarchy` raise `ZeroDivisionError` at line 320, because the
degenerate record sorts after the larger record A and
`intersection_area / geom.area` divides by zero. -/
theorem infer_hierarchy_zero_area_raises :
    infer_hierarchy boxOps (1/2000) (1/50) degGdf = .error zeroDivMsg := by
  norm_num [infer_hierarchy, prepRows, sortRows, isort, insertRow, leRow, areaKey,
    assignNames, resetClass, inferLoop, stepRow, firstQualifying, ctxOf, Gdf.copy,
    boxOps, Box.area, Box.buffer, Box.inter, Box.intersects, Box.isEmpty,
    boxA, boxSeg, degGdf, Except.map]

/-- A row is safe for the scan: its geometry is missing, or empty, or has
nonzero area (so line 320 cannot divide by zero on it). -/
def geomAreaOk {G : Type} (ops : GeomOps G) (r : Row G) : Bool :=
  match r.geom with
  | some g => ops.isEmpty g || !(decide (ops.area g = 0))
  | none => true

theorem geomAreaOk_elim {G : Type} (ops : GeomOps G) (r : Row G)
    (h : geomAreaOk ops r = true) :
    match r.geom with
    | some g => ops.isEmpty g = true ∨ ops.area g ≠ 0
    | none => True := by
  cases hg : r.geom with
  | none => exact trivial
  | some g =>
    unfold geomAreaOk at h
    rw [hg] at h
    have h2 : (ops.isEmpty g || !(decide (ops.area g = 0))) = true := h
    rw [Bool.or_eq_true] at h2
    rcases h2 with h2 | h2
    · exact Or.inl h2
    · refine Or.inr ?_
      simpa using h2

theorem geomAreaOk_congr {G : Type} (ops : GeomOps G) {r r0 : Row G}
    (h : r.geom = r0.geom) : geomAreaOk ops r = geomAreaOk ops r0 := by
  unfold geomAreaOk
  rw [h]

theorem enumFrom_snd_mem {α : Type} :
    ∀ (l : List α) (n : ℕ) (p : ℕ × α), p ∈ l.enumFrom n → p.2 ∈ l := by
  intro l
  induction l with
  | nil => intro n p hp; simp [List.enumFrom] at hp
  | cons a l ih =>
    intro n p hp
    simp only [List.enumFrom, List.mem_cons] at hp
    rcases hp with hp | hp
    · subst hp
      exact List.mem_cons_self a l
    · exact List.mem_cons_of_mem a (ih (n + 1) p hp)

theorem enum_snd_mem {α : Type} (l : List α) (p : ℕ × α) (hp : p ∈ l.enum) :
    p.2 ∈ l :=
  enumFrom_snd_mem l 0 p hp

theorem assignNames_geom {G : Type} (hc : Bool) (rows : List (Row G)) :
    ∀ r ∈ assignNames hc rows, ∃ r0 ∈ rows, r.geom = r0.geom := by
  intro r hr
  unfold assignNames at hr
  by_cases h : hc = true
  · rw [if_pos h] at hr
    exact ⟨r, hr, rfl⟩
  · rw [if_neg h] at hr
    obtain ⟨p, hp, hpe⟩ := List.mem_map.mp hr
    refine ⟨p.2, enum_snd_mem rows p hp, ?_⟩
    rw [← hpe]

theorem prepRows_geom {G : Type} (ops : GeomOps G) (gdf : Gdf G) :
    ∀ r ∈ prepRows ops gdf, ∃ r0 ∈ gdf.rows, r.geom = r0.geom := by
  intro r hr
  have hr2 := mem_isort (leRow ops) hr
  obtain ⟨x, hx, hxe⟩ := List.mem_map.mp hr2
  obtain ⟨r0, hr0, hge⟩ := assignNames_geom _ _ x hx
  refine ⟨r0, hr0, ?_⟩
  rw [← hxe]
  exact hge

/-- What C3 asserts of well-behaved datasets: the call succeeds, and
rows with missing or empty geometry come through unchanged (top-level,
unparented). -/
def c3Prop {G : Type} (ops : GeomOps G) (tol minR : ℚ) (gdf : Gdf G) : Prop :=
  ∃ out, infer_hierarchy ops tol minR gdf = .ok out ∧
    out.rows.length = (prepRows ops gdf).length ∧
    ∀ i (hi : i < (prepRows ops gdf).length) (hi2 : i < out.rows.length),
      (((prepRows ops gdf).get ⟨i, hi⟩).geom = none →
        out.rows.get ⟨i, hi2⟩ = (prepRows ops gdf).get ⟨i, hi⟩) ∧
      (∀ g, ((prepRows ops gdf).get ⟨i, hi⟩).geom = some g → ops.isEmpty g = true →
        out.rows.get ⟨i, hi2⟩ = (prepRows ops gdf).get ⟨i, hi⟩)

/-- C3 (amended): `infer_hierarchy` never raises provided every non-empty
geometry has nonzero area; records with missing or empty geometry are
skipped, staying top-level and unparented.  (As stated the claim is
false: a record with a well-formed, non-empty geometry of zero area
raises `ZeroDivisionError` when any earlier record has a non-empty
buffered geometry — see the counterexample.) -/
theorem infer_hierarchy_safe {G : Type} (ops : GeomOps G) (tol minR : ℚ) (gdf : Gdf G)
    (h : ∀ r ∈ gdf.rows, geomAreaOk ops r = true) : c3Prop ops tol minR gdf := by
  have hcond : ∀ r ∈ prepRows ops gdf,
      (match r.geom with
       | some g => ops.isEmpty g = true ∨ ops.area g ≠ 0
       | none => True) := by
    intro r hr
    obtain ⟨r0, hr0, hge⟩ := prepRows_geom ops gdf r hr
    refine geomAreaOk_elim ops r ?_
    rw [geomAreaOk_congr ops hge]
    exact h r0 hr0
  obtain ⟨rows0, hloop⟩ := inferLoop_ok_of ops minR tol (prepRows ops gdf) [] hcond
  refine ⟨⟨true, rows0⟩, infer_hierarchy_intro ops tol minR gdf rows0 hloop,
    (inferLoop_ok_char ops minR tol _ [] rows0 hloop).1, ?_⟩
  intro i hi hi2
  have hstep := (inferLoop_ok_char ops minR tol _ [] rows0 hloop).2 i hi hi2
  rw [List.nil_append] at hstep
  constructor
  · intro hg
    rw [stepRow_none ops minR _ hg] at hstep
    injection hstep with h2
    exact h2.symm
  · intro g hg hemp
    rw [stepRow_some ops minR _ hg, if_pos hemp] at hstep
    injection hstep with h2
    exact h2.symm

/-- C3 witness: a concrete dataset with an empty geometry, a missing
geometry, and two normal boxes succeeds end to end. -/
theorem infer_hierarchy_safe_witness : c3Prop boxOps (1/2000) (1/50) mixGdf := by
  refine infer_hierarchy_safe boxOps (1/2000) (1/50) mixGdf ?_
  intro r hr
  fin_cases hr <;>
    norm_num [geomAreaOk, boxOps, Box.isEmpty, Box.area, boxEmpty, boxA, boxB]

/-! ### Shared characterisation of a successful run -/

theorem ctxOf_length {G : Type} (ops : GeomOps G) (tol : ℚ) (l : List (Row G)) :
    (ctxOf ops tol l).length = l.length := by
  unfold ctxOf
  exact List.length_map _ _

theorem ctxOf_entry {G : Type} (ops : GeomOps G) (tol : ℚ) (l : List (Row G)) (j : ℕ)
    (e : String × Option G) (h : (ctxOf ops tol l).get? j = some e) :
    ∃ r, l.get? j = some r ∧ e.1 = r.name ∧ e.2 = r.geom.map (ops.buffer tol) := by
  unfold ctxOf at h
  rw [List.get?_map] at h
  cases hl : l.get? j with
  | none =>
    rw [hl] at h
    exact absurd h (by simp)
  | some r =>
    rw [hl] at h
    injection h with h2
    exact ⟨r, rfl, by rw [← h2], by rw [← h2]⟩

theorem ctxOf_get? {G : Type} (ops : GeomOps G) (tol : ℚ) (l : List (Row G)) (j : ℕ) :
    ((ctxOf ops tol l).get? j).map Prod.fst = (l.get? j).map Row.name := by
  unfold ctxOf
  rw [List.get?_map]
  cases l.get? j <;> rfl

theorem firstIdx_none_of_false {α : Type} (p : α → Bool) :
    ∀ (l : List α), (∀ e ∈ l, p e = false) → firstIdx p l = none := by
  intro l
  induction l with
  | nil => intro _; rfl
  | cons a l ih =>
    intro h
    rw [firstIdx_cons, h a (List.mem_cons_self a l)]
    rw [if_neg (by simp)]
    rw [ih (fun e he => h e (List.mem_cons_of_mem a he))]
    rfl

theorem fixedRow_parent {G : Type} {r : Row G} (h : resetClass r = r) :
    r.parent = none ∧ r.isTop = true :=
  ⟨(congrArg Row.parent h).symm, (congrArg Row.isTop h).symm⟩

theorem resetClass_name_geom {G : Type} {r1 r2 : Row G}
    (h : resetClass r1 = resetClass r2) : r1.name = r2.name ∧ r1.geom = r2.geom := by
  have h1 := congrArg Row.name h
  have h2 := congrArg Row.geom h
  exact ⟨h1, h2⟩

theorem codeParentIdx_none_of_bind {G : Type} (ops : GeomOps G) (tol minR : ℚ)
    (s : List (Row G)) (i : ℕ)
    (hbind : (s.get? i).bind (fun r => r.geom) = none) :
    codeParentIdx ops tol minR s i = none := by
  unfold codeParentIdx
  rw [hbind]

theorem codeParentIdx_of_empty {G : Type} (ops : GeomOps G) (tol minR : ℚ)
    (s : List (Row G)) (i : ℕ) {g : G}
    (hbind : (s.get? i).bind (fun r => r.geom) = some g)
    (hemp : ops.isEmpty g = true) : codeParentIdx ops tol minR s i = none := by
  unfold codeParentIdx
  rw [hbind]
  show (if ops.isEmpty g = true then none
        else firstIdx (codeQualifies ops minR g) (ctxOf ops tol (s.take i))) = none
  rw [if_pos hemp]

theorem codeParentIdx_of_geom {G : Type} (ops : GeomOps G) (tol minR : ℚ)
    (s : List (Row G)) (i : ℕ) {g : G}
    (hbind : (s.get? i).bind (fun r => r.geom) = some g)
    (hemp : ¬ ops.isEmpty g = true) :
    codeParentIdx ops tol minR s i =
      firstIdx (codeQualifies ops minR g) (ctxOf ops tol (s.take i)) := by
  unfold codeParentIdx
  rw [hbind]
  show (if ops.isEmpty g = true then none
        else firstIdx (codeQualifies ops minR g) (ctxOf ops tol (s.take i))) = _
  rw [if_neg hemp]

/-- Full characterisation of a successful `infer_hierarchy` run: each
output row equals the corresponding sorted input row up to the two
classification fields, its `parent_field_name` is the name of the row at
the code's first-qualifying index, and `is_top_level` records whether no
index qualified. -/
theorem out_parent_char {G : Type} (ops : GeomOps G) (tol minR : ℚ) (gdf out : Gdf G)
    (h : infer_hierarchy ops tol minR gdf = .ok out) :
    out.rows.length = (prepRows ops gdf).length ∧
    ∀ i (hi : i < (prepRows ops gdf).length) (hi2 : i < out.rows.length),
      resetClass (out.rows.get ⟨i, hi2⟩) = resetClass ((prepRows ops gdf).get ⟨i, hi⟩) ∧
      (out.rows.get ⟨i, hi2⟩).parent =
        (codeParentIdx ops tol minR (prepRows ops gdf) i).bind
          (fun j => ((prepRows ops gdf).get? j).map Row.name) ∧
      (out.rows.get ⟨i, hi2⟩).isTop =
        (codeParentIdx ops tol minR (prepRows ops gdf) i).isNone := by
  obtain ⟨hloop, hname⟩ := infer_hierarchy_ok_elim ops tol minR gdf out h
  obtain ⟨hlen, hchar⟩ := inferLoop_ok_char ops minR tol (prepRows ops gdf) [] out.rows hloop
  refine ⟨hlen, ?_⟩
  intro i hi hi2
  have hstep := hchar i hi hi2
  rw [List.nil_append] at hstep
  have hgetq : (prepRows ops gdf).get? i = some ((prepRows ops gdf).get ⟨i, hi⟩) :=
    List.get?_eq_get hi
  have hfix : resetClass ((prepRows ops gdf).get ⟨i, hi⟩) = (prepRows ops gdf).get ⟨i, hi⟩ :=
    prepRows_fixed ops gdf _ (List.get_mem _ i hi)
  obtain ⟨hfpar, hftop⟩ := fixedRow_parent hfix
  cases hg : ((prepRows ops gdf).get ⟨i, hi⟩).geom with
  | none =>
    have hbind : ((prepRows ops gdf).get? i).bind (fun r => r.geom) = none := by
      rw [hgetq]
      simpa using hg
    rw [codeParentIdx_none_of_bind ops tol minR _ i hbind]
    rw [stepRow_none ops minR _ hg] at hstep
    injection hstep with h2
    refine ⟨by rw [← h2], by rw [← h2]; simpa using hfpar, by rw [← h2]; simpa using hftop⟩
  | some g =>
    have hbind : ((prepRows ops gdf).get? i).bind (fun r => r.geom) = some g := by
      rw [hgetq]
      simpa using hg
    rw [stepRow_some ops minR _ hg] at hstep
    by_cases hemp : ops.isEmpty g = true
    · rw [if_pos hemp] at hstep
      injection hstep with h2
      rw [codeParentIdx_of_empty ops tol minR _ i hbind hemp]
      refine ⟨by rw [← h2], by rw [← h2]; simpa using hfpar, by rw [← h2]; simpa using hftop⟩
    · rw [if_neg hemp] at hstep
      rw [codeParentIdx_of_geom ops tol minR _ i hbind hemp]
      cases hq : firstQualifying ops minR g (ops.area g) (ctxOf ops tol ((prepRows ops gdf).take i)) with
      | error e =>
        rw [hq] at hstep
        exact absurd hstep (by simp)
      | ok res =>
        rw [hq] at hstep
        have hres := firstQualifying_ok_eq ops minR g _ res hq
        cases res with
        | none =>
          injection hstep with h2
          have hfi : firstIdx (codeQualifies ops minR g)
              (ctxOf ops tol ((prepRows ops gdf).take i)) = none := by
            cases hfi2 : firstIdx (codeQualifies ops minR g)
                (ctxOf ops tol ((prepRows ops gdf).take i)) with
            | none => rfl
            | some j =>
              exfalso
              rw [hfi2] at hres
              simp only [Option.some_bind] at hres
              have hlt := firstIdx_lt_length _ _ _ hfi2
              rw [List.get?_eq_get hlt] at hres
              simp at hres
          rw [hfi]
          refine ⟨by rw [← h2], by rw [← h2]; simpa using hfpar, by rw [← h2]; simpa using hftop⟩
        | some nm =>
          injection hstep with h2
          cases hfi2 : firstIdx (codeQualifies ops minR g)
              (ctxOf ops tol ((prepRows ops gdf).take i)) with
          | none =>
            rw [hfi2] at hres
            simp at hres
          | some j =>
            rw [hfi2] at hres
            simp only [Option.some_bind] at hres
            have hlt := firstIdx_lt_length _ _ _ hfi2
            have hji : j < i := by
              have hltc := hlt
              rw [ctxOf_length, List.length_take] at hltc
              exact lt_of_lt_of_le hltc (min_le_left _ _)
            have hmapped : ((ctxOf ops tol ((prepRows ops gdf).take i)).get? j).map Prod.fst =
                ((prepRows ops gdf).get? j).map Row.name := by
              rw [ctxOf_get?, List.get?_take hji]
            rw [hmapped] at hres
            refine ⟨?_, ?_, ?_⟩
            · rw [← h2]
              rfl
            · rw [← h2]
              simp only [Option.some_bind]
              exact hres
            · rw [← h2]
              rfl

/-! ### C1: first-qualifying parent assignment, as the spec words it -/

/-- Index of the parent of the row at sorted position `i` according to
the specification's wording: the first previously processed `j < i`
whose buffered geometry overlaps `geometry(i)` with ratio at least
`min_overlap_ratio` or intersects it at all (no other proviso). -/
def claimParentIdx {G : Type} (ops : GeomOps G) (tol minR : ℚ) (s : List (Row G))
    (i : ℕ) : Option ℕ :=
  match (s.get? i).bind (fun r => r.geom) with
  | none => none
  | some g => firstIdx (claimQualifies ops minR g) (ctxOf ops tol (s.take i))

theorem claimParentIdx_none_of_bind {G : Type} (ops : GeomOps G) (tol minR : ℚ)
    (s : List (Row G)) (i : ℕ)
    (hbind : (s.get? i).bind (fun r => r.geom) = none) :
    claimParentIdx ops tol minR s i = none := by
  unfold claimParentIdx
  rw [hbind]

theorem claimParentIdx_of_geom {G : Type} (ops : GeomOps G) (tol minR : ℚ)
    (s : List (Row G)) (i : ℕ) {g : G}
    (hbind : (s.get? i).bind (fun r => r.geom) = some g) :
    claimParentIdx ops tol minR s i =
      firstIdx (claimQualifies ops minR g) (ctxOf ops tol (s.take i)) := by
  unfold claimParentIdx
  rw [hbind]

theorem claimQualifies_empty_right {G : Type} {ops : GeomOps G} (hl : GeomLaws ops)
    {minR : ℚ} (hm : 0 < minR) {g : G} (hemp : ops.isEmpty g = true)
    (e : String × Option G) : claimQualifies ops minR g e = false := by
  obtain ⟨nm, pgo⟩ := e
  cases pgo with
  | none => rfl
  | some pg =>
    show (decide (minR ≤ ops.area (ops.inter pg g) / ops.area g) || ops.intersects pg g) = false
    rw [hl.inter_empty_right pg g hemp, hl.intersects_empty_right pg g hemp, zero_div]
    simp only [Bool.or_false]
    exact decide_eq_false (not_le.mpr hm)

/-- Under the geometry laws and a positive threshold, the parent index
demanded by the specification's wording coincides with the one the code
computes. -/
theorem claimParentIdx_eq_code {G : Type} {ops : GeomOps G} (hl : GeomLaws ops)
    (tol : ℚ) {minR : ℚ} (hm : 0 < minR) (s : List (Row G)) (i : ℕ) :
    claimParentIdx ops tol minR s i = codeParentIdx ops tol minR s i := by
  cases hbind : (s.get? i).bind (fun r => r.geom) with
  | none =>
    rw [claimParentIdx_none_of_bind ops tol minR s i hbind,
      codeParentIdx_none_of_bind ops tol minR s i hbind]
  | some g =>
    by_cases hemp : ops.isEmpty g = true
    · rw [claimParentIdx_of_geom ops tol minR s i hbind,
        codeParentIdx_of_empty ops tol minR s i hbind hemp]
      exact firstIdx_none_of_false _ _
        (fun e he => claimQualifies_empty_right hl hm hemp e)
    · rw [claimParentIdx_of_geom ops tol minR s i hbind,
        codeParentIdx_of_geom ops tol minR s i hbind hemp]
      exact firstIdx_congr _ _ _ (fun e he => claimQualifies_eq_code hl hm g e)

/-- What C1 asserts: each record, taken in area-descending order, gets as
parent the name of the first previously processed record whose buffered
geometry overlaps it with ratio at least `min_overlap_ratio` or
intersects it at all; records with no qualifying predecessor keep
`is_top_level = true` and a null parent; names and geometries pass
through unchanged. -/
def c1Prop {G : Type} (ops : GeomOps G) (tol minR : ℚ) (gdf out : Gdf G) : Prop :=
  out.rows.length = (prepRows ops gdf).length ∧
  ∀ i (hi : i < (prepRows ops gdf).length) (hi2 : i < out.rows.length),
    (out.rows.get ⟨i, hi2⟩).name = ((prepRows ops gdf).get ⟨i, hi⟩).name ∧
    (out.rows.get ⟨i, hi2⟩).geom = ((prepRows ops gdf).get ⟨i, hi⟩).geom ∧
    (out.rows.get ⟨i, hi2⟩).parent =
      (claimParentIdx ops tol minR (prepRows ops gdf) i).bind
        (fun j => ((prepRows ops gdf).get? j).map Row.name) ∧
    (out.rows.get ⟨i, hi2⟩).isTop =
      (claimParentIdx ops tol minR (prepRows ops gdf) i).isNone

/-- C1: on every dataset it accepts, `infer_hierarchy` assigns parents
exactly by the specification's first-qualifying scan over the
area-descending order, and leaves records without a qualifying
predecessor top-level and unparented.  Hypotheses: the geometry
operations satisfy the shapely empty-geometry laws and the overlap
threshold is positive (as the default `0.02` is). -/
theorem infer_hierarchy_first_qualifying {G : Type} {ops : GeomOps G}
    (hl : GeomLaws ops) (tol : ℚ) {minR : ℚ} (hm : 0 < minR) (gdf out : Gdf G)
    (h : infer_hierarchy ops tol minR gdf = .ok out) : c1Prop ops tol minR gdf out := by
  obtain ⟨hlen, hchar⟩ := out_parent_char ops tol minR gdf out h
  refine ⟨hlen, ?_⟩
  intro i hi hi2
  obtain ⟨hreset, hpar, htop⟩ := hchar i hi hi2
  obtain ⟨hnm, hge⟩ := resetClass_name_geom hreset
  rw [claimParentIdx_eq_code hl tol hm]
  exact ⟨hnm, hge, hpar, htop⟩

/-- C1 witness: the nested-boxes run satisfies the characterisation. -/
theorem infer_hierarchy_first_qualifying_witness :
    c1Prop boxOps (1/2000) (1/50) exGdf exOut :=
  infer_hierarchy_first_qualifying box_laws (1/2000) (by norm_num) exGdf exOut exGdf_run

/-! ### C4: the parent relation is acyclic -/

theorem codeQualifies_true_elim {G : Type} (ops : GeomOps G) (minR : ℚ) (g : G)
    (e : String × Option G) (h : codeQualifies ops minR g e = true) :
    ∃ pg, e.2 = some pg ∧ ops.isEmpty pg = false := by
  obtain ⟨nm, pgo⟩ := e
  cases pgo with
  | none =>
    rw [codeQualifies_eval_none ops minR g rfl] at h
    exact absurd h (by simp)
  | some pg =>
    refine ⟨pg, rfl, ?_⟩
    rw [codeQualifies_eval_some ops minR g rfl] at h
    rw [Bool.and_eq_true] at h
    simpa using h.1

/-- Position and area facts about every parent assignment the code's
scan can make on the sorted rows: the parent sits strictly earlier, both
rows carry geometries, and the parent's area is at least the child's. -/
theorem codeParentIdx_lt_and_area {G : Type} (ops : GeomOps G) (tol minR : ℚ)
    (gdf : Gdf G) (i j : ℕ)
    (hcp : codeParentIdx ops tol minR (prepRows ops gdf) i = some j) :
    j < i ∧ ∃ ri rj gi gj,
      (prepRows ops gdf).get? i = some ri ∧ (prepRows ops gdf).get? j = some rj ∧
      ri.geom = some gi ∧ rj.geom = some gj ∧ ops.area gi ≤ ops.area gj := by
  cases hbind : ((prepRows ops gdf).get? i).bind (fun r => r.geom) with
  | none =>
    rw [codeParentIdx_none_of_bind ops tol minR _ i hbind] at hcp
    exact absurd hcp (by simp)
  | some gi =>
    by_cases hemp : ops.isEmpty gi = true
    · rw [codeParentIdx_of_empty ops tol minR _ i hbind hemp] at hcp
      exact absurd hcp (by simp)
    · rw [codeParentIdx_of_geom ops tol minR _ i hbind hemp] at hcp
      have hlt := firstIdx_lt_length _ _ _ hcp
      have hltc := hlt
      rw [ctxOf_length, List.length_take] at hltc
      have hji : j < i := lt_of_lt_of_le hltc (min_le_left _ _)
      have hjs : j < (prepRows ops gdf).length := lt_of_lt_of_le hltc (min_le_right _ _)
      have hq := firstIdx_holds _ _ _ hcp hlt
      obtain ⟨pg, hpg, hpgne⟩ := codeQualifies_true_elim ops minR gi _ hq
      have hget : (ctxOf ops tol ((prepRows ops gdf).take i)).get? j =
          some ((ctxOf ops tol ((prepRows ops gdf).take i)).get ⟨j, hlt⟩) :=
        List.get?_eq_get hlt
      obtain ⟨rj, hrj, hename, hesnd⟩ := ctxOf_entry ops tol _ j _ hget
      rw [List.get?_take hji] at hrj
      have hgjmap : rj.geom.map (ops.buffer tol) = some pg := by
        rw [← hesnd, hpg]
      obtain ⟨gj, hgj, hpge⟩ := Option.map_eq_some'.mp hgjmap
      cases hgi : (prepRows ops gdf).get? i with
      | none =>
        rw [hgi] at hbind
        exact absurd hbind (by simp)
      | some ri =>
        rw [hgi] at hbind
        have hrig : ri.geom = some gi := by simpa using hbind
        have his : i < (prepRows ops gdf).length := by
          obtain ⟨hw, hv⟩ := List.get?_eq_some.mp hgi
          exact hw
        have hle := chain_le_get (leRow ops)
          (fun hab hbc => leRow_trans ops hab hbc) (prepRows ops gdf)
          (prepRows_chain ops gdf) ⟨j, hjs⟩ ⟨i, his⟩ hji
        have hgj2 : (prepRows ops gdf).get ⟨j, hjs⟩ = rj := by
          have := List.get?_eq_get (l := prepRows ops gdf) hjs
          rw [hrj] at this
          exact (Option.some.injEq _ _).mp this.symm
        have hgi2 : (prepRows ops gdf).get ⟨i, his⟩ = ri := by
          have := List.get?_eq_get (l := prepRows ops gdf) his
          rw [hgi] at this
          exact (Option.some.injEq _ _).mp this.symm
        rw [hgj2, hgi2] at hle
        unfold leRow areaKey at hle
        rw [hrig, hgj] at hle
        have harea : ops.area gi ≤ ops.area gj := by
          have hle2 : decide (ops.area gi ≤ ops.area gj) = true := hle
          exact of_decide_eq_true hle2
        exact ⟨hji, ri, rj, gi, gj, rfl, hrj, hrig, hgj, harea⟩

/-- What C4 asserts: every assigned parent sits strictly earlier in the
area-descending order and has at least the child's geometry area, the
resulting parent relation is acyclic (no record is transitively its own
parent), and the output's `parent_field_name` column is exactly that
relation read back as names. -/
def c4Prop {G : Type} (ops : GeomOps G) (tol minR : ℚ) (gdf out : Gdf G) : Prop :=
  (∀ i j, codeParentIdx ops tol minR (prepRows ops gdf) i = some j →
    j < i ∧ ∃ ri rj gi gj,
      (prepRows ops gdf).get? i = some ri ∧ (prepRows ops gdf).get? j = some rj ∧
      ri.geom = some gi ∧ rj.geom = some gj ∧ ops.area gi ≤ ops.area gj) ∧
  (∀ i, ¬ Relation.TransGen
    (fun a b => codeParentIdx ops tol minR (prepRows ops gdf) b = some a) i i) ∧
  out.rows.length = (prepRows ops gdf).length ∧
  ∀ i (hi : i < (prepRows ops gdf).length) (hi2 : i < out.rows.length),
    (out.rows.get ⟨i, hi2⟩).parent =
      (codeParentIdx ops tol minR (prepRows ops gdf) i).bind
        (fun j => ((prepRows ops gdf).get? j).map Row.name)

/-- C4: the hierarchy engine's parent relation is acyclic — every
assigned parent is an earlier, greater-or-equal-area record in the
sorted order, so no record is (transitively) its own parent — and the
output column realises exactly that relation. -/
theorem infer_hierarchy_acyclic {G : Type} (ops : GeomOps G) (tol minR : ℚ)
    (gdf out : Gdf G) (h : infer_hierarchy ops tol minR gdf = .ok out) :
    c4Prop ops tol minR gdf out := by
  obtain ⟨hlen, hchar⟩ := out_parent_char ops tol minR gdf out h
  refine ⟨fun i j hcp => codeParentIdx_lt_and_area ops tol minR gdf i j hcp, ?_, hlen, ?_⟩
  · intro i hti
    have hmono : ∀ a b, Relation.TransGen
        (fun a b => codeParentIdx ops tol minR (prepRows ops gdf) b = some a) a b →
        a < b := by
      intro a b hab
      induction hab with
      | single h1 => exact (codeParentIdx_lt_and_area ops tol minR gdf _ _ h1).1
      | tail h1 h2 ih =>
        exact lt_trans ih (codeParentIdx_lt_and_area ops tol minR gdf _ _ h2).1
    exact lt_irrefl i (hmono i i hti)
  · intro i hi hi2
    exact (hchar i hi hi2).2.1

/-- C4 witness: the nested-boxes run satisfies the acyclicity
characterisation. -/
theorem infer_hierarchy_acyclic_witness : c4Prop boxOps (1/2000) (1/50) exGdf exOut :=
  infer_hierarchy_acyclic boxOps (1/2000) (1/50) exGdf exOut exGdf_run

/-! ### C8: orbit angle model -/

theorem arcsin_deg_abs_le_90 (x : ℝ) : |Real.arcsin x * 180 / Real.pi| ≤ 90 := by
  have h1 : |Real.arcsin x| ≤ Real.pi / 2 :=
    abs_le.mpr ⟨Real.neg_pi_div_two_le_arcsin x, Real.arcsin_le_pi_div_two x⟩
  have hpi : (0 : ℝ) < Real.pi := Real.pi_pos
  have h2 : |Real.arcsin x * 180 / Real.pi| = |Real.arcsin x| * 180 / Real.pi := by
    rw [abs_div, abs_mul, abs_of_pos hpi]
    norm_num
  rw [h2, div_le_iff hpi]
  nlinarith [h1]

/-- C8 counterexample: at inclination `0` and latitude `0` the function
returns `90`, which is outside the claimed range
`[-inclination_deg, inclination_deg] = [0, 0]` — the claimed range is
wrong for inclinations below 90 degrees. -/
theorem sso_angle_at_zero_inclination :
    sso_ground_track_angle 0 0 "NE->SW" = 90 ∧
    ¬ |sso_ground_track_angle 0 0 "NE->SW"| ≤ 0 := by
  have h : sso_ground_track_angle 0 0 "NE->SW" = 90 := by
    simp only [sso_ground_track_angle]
    rw [if_neg (by norm_num : ¬ |(0 : ℝ)| > 0)]
    simp only [if_true]
    have e1 : (0 : ℝ) * Real.pi / 180 = 0 := by ring
    rw [e1, Real.cos_zero]
    rw [(by norm_num : (1 : ℝ) / 1 = 1)]
    rw [min_self, max_eq_right (by norm_num : (-1 : ℝ) ≤ 1), Real.arcsin_one]
    field_simp
    ring
  refine ⟨h, ?_⟩
  rw [h]
  norm_num

/-- C8 (amended): the orbit angle model is total; every real input
yields an angle in `[-90, 90]`, hence within
`[-inclination_deg, inclination_deg]` whenever the inclination is at
least 90 degrees (true of the sun-synchronous inclination 97.8 the
program uses); and for `|lat| > inclination` the result equals the
result at the clamped latitude `copysign(inclination, lat)`. -/
theorem sso_angle_range_clamp (lat inc : ℝ) (dir : String) :
    |sso_ground_track_angle lat inc dir| ≤ 90 ∧
    (90 ≤ inc → |sso_ground_track_angle lat inc dir| ≤ inc) ∧
    (|lat| > inc → sso_ground_track_angle lat inc dir =
      sso_ground_track_angle (if lat < 0 then -|inc| else |inc|) inc dir) := by
  have hrange : |sso_ground_track_angle lat inc dir| ≤ 90 := by
    simp only [sso_ground_track_angle]
    by_cases hd : dir = "NE->SW"
    · rw [if_pos hd]
      exact arcsin_deg_abs_le_90 _
    · rw [if_neg hd, abs_neg]
      exact arcsin_deg_abs_le_90 _
  refine ⟨hrange, fun hinc => le_trans hrange hinc, ?_⟩
  intro hgt
  have hee : (if |lat| > inc then (if lat < 0 then -|inc| else |inc|) else lat) =
      (if |(if lat < 0 then -|inc| else |inc|)| > inc then
        (if (if lat < 0 then -|inc| else |inc|) < 0 then -|inc| else |inc|)
       else (if lat < 0 then -|inc| else |inc|)) := by
    rw [if_pos hgt]
    by_cases hlat : lat < 0
    · rw [if_pos hlat]
      rw [abs_neg, abs_abs]
      by_cases h2 : |inc| > inc
      · rw [if_pos h2]
        by_cases h3 : -|inc| < 0
        · rw [if_pos h3]
        · rw [if_neg h3]
          have h4 : |inc| = 0 :=
            le_antisymm (by linarith [not_lt.mp h3]) (abs_nonneg inc)
          rw [h4]
          norm_num
      · rw [if_neg h2]
    · rw [if_neg hlat]
      rw [abs_abs]
      by_cases h2 : |inc| > inc
      · rw [if_pos h2]
        rw [if_neg (not_lt.mpr (abs_nonneg inc))]
      · rw [if_neg h2]
  simp only [sso_ground_track_angle]
  rw [hee]

/-- C8 witness: at latitude 100 (beyond the inclination 97.8) the angle
is within bounds and equals the angle at the clamped latitude. -/
theorem sso_angle_range_clamp_witness :
    |sso_ground_track_angle 100 97.8 "NE->SW"| ≤ 90 ∧
    |sso_ground_track_angle 100 97.8 "NE->SW"| ≤ 97.8 ∧
    sso_ground_track_angle 100 97.8 "NE->SW" =
      sso_ground_track_angle (if (100 : ℝ) < 0 then -|(97.8 : ℝ)| else |(97.8 : ℝ)|)
        97.8 "NE->SW" :=
  ⟨(sso_angle_range_clamp 100 97.8 "NE->SW").1,
   (sso_angle_range_clamp 100 97.8 "NE->SW").2.1 (by norm_num),
   (sso_angle_range_clamp 100 97.8 "NE->SW").2.2 (by norm_num)⟩

end CIA
